import Mathlib

/-!
Verification of the indentation-complexity analyzer.

The analyzer is a pure pipeline: source text (or a unified diff) is split
into lines, each retained line gets an integer indentation depth, the list
of depths is summarized by statistical moments and a headline score, and the
score is classified against thresholds.

Embedding conventions:
* JS strings are embedded as lists of characters (`Str`).
* JS numbers are embedded as rationals; the one inherently irrational value,
  the standard deviation, is a real number (`Real.sqrt` of the variance).
* The external npm dependency detect-indent is not part of the repository;
  it is modelled as an explicit function parameter (`Detector`).  Nothing
  proved here depends on its behaviour.
* A JS RegExp comment pattern is modelled by its test function
  (`CommentPat`), with the repository's default pattern implemented
  concretely.
-/

set_option autoImplicit false

/-- Strings of the analyzed text, as lists of characters. -/
abbrev Str := List Char

/-- Character data of a Lean string literal, used to write `Str` constants. -/
def str (s : String) : Str := s.data

/-- Whitespace characters recognized by the JS string trim operation
(restricted to the ASCII range, which is all the analyzer's filters need). -/
def isJsWhitespace (c : Char) : Bool :=
  c = ' ' || c = '\t' || c = '\n' || c = '\r' || c = '\x0b' || c = '\x0c'

/-- JS `line.trim()`: remove leading and trailing whitespace. -/
def jsTrim (l : Str) : Str :=
  ((l.dropWhile isJsWhitespace).reverse.dropWhile isJsWhitespace).reverse

/-- JS `content.split('\n')`: split into lines at newline characters.
`""` splits to `[""]`, and a trailing newline yields a final empty piece,
exactly as in JS. -/
def splitLines : Str → List Str
  | [] => [[]]
  | c :: rest =>
    if c = '\n' then [] :: splitLines rest
    else
      match splitLines rest with
      | [] => [[c]]
      | h :: t => (c :: h) :: t

/-- The result type of the external detect-indent dependency: `'tab'`,
`'space'`, or `undefined` (no indentation signal). -/
inductive IndentType where
  | tab
  | space
  | undetected
deriving DecidableEq

/-- The `{amount, type}` record returned by detect-indent. -/
structure IndentInfo where
  amount : ℕ
  type : IndentType

/-- The external detect-indent function, abstracted: the repository imports
it from npm, so theorems quantify over every possible detector. -/
abbrev Detector := Str → IndentInfo

/-- `type === 'tab' ? 1 : amount || 1` — the indent unit the parser feeds to
depth computation (src/parser.ts line 190 and the same expression in
parseDiff). -/
def resolveIndentUnit (info : IndentInfo) : ℕ :=
  if info.type = IndentType.tab then 1
  else if info.amount = 0 then 1 else info.amount

/-- A comment pattern is modelled by its test function (JS RegExp.test). -/
abbrev CommentPat := Str → Bool

/-- The repository's DEFAULT_COMMENT_PATTERN regex
`^\s*(//|/*|*|#|<!--|--)` (src/constants.ts): optional leading whitespace
followed by one of the comment markers. -/
def defaultCommentPattern : CommentPat := fun l =>
  let rest := l.dropWhile isJsWhitespace
  (str "//").isPrefixOf rest || (str "/*").isPrefixOf rest ||
    (str "*").isPrefixOf rest || (str "#").isPrefixOf rest ||
    (str "<!--").isPrefixOf rest || (str "--").isPrefixOf rest

/-- `commentPattern !== null && commentPattern.test(line)`: a `none` pattern
(JS `null`) never matches. -/
def patTest (cp : Option CommentPat) (l : Str) : Bool :=
  match cp with
  | some p => p l
  | none => false

/-- Internal representation of a parsed line (src/types.ts `ParsedLine`). -/
structure ParsedLine where
  lineNumber : ℕ
  depth : ℕ
  content : Str
deriving DecidableEq

/-- Result of parsing (src/parser.ts `ParseResult`). -/
structure ParseResult where
  lines : List ParsedLine
  indentUnit : ℕ
deriving DecidableEq

/-- src/parser.ts `computeIndentDepth`: scan the leading `[\t ]*` run, count
`indentUnit` columns per tab and 1 per space, and divide by `indentUnit`
(ℕ division is the floor of the exact quotient, as in `Math.floor`). -/
def computeIndentDepth (line : Str) (indentUnit : ℕ) : ℕ :=
  let leadingWhitespace := line.takeWhile (fun c => c = '\t' || c = ' ')
  let charCount :=
    leadingWhitespace.foldl (fun acc c => acc + if c = '\t' then indentUnit else 1) 0
  charCount / indentUnit

/-- The content-path line loop of src/parser.ts `parseContent`: `i` is the
0-based index of the next raw line; blank lines and comment lines are
skipped, surviving lines carry their 1-based position in the raw sequence. -/
def parseLinesAux (cp : Option CommentPat) (u : ℕ) : ℕ → List Str → List ParsedLine
  | _, [] => []
  | i, l :: rest =>
    let trimmed := jsTrim l
    if trimmed = [] then parseLinesAux cp u (i + 1) rest
    else if patTest cp l then parseLinesAux cp u (i + 1) rest
    else ⟨i + 1, computeIndentDepth l u, trimmed⟩ :: parseLinesAux cp u (i + 1) rest

/-- src/parser.ts `parseContent`.  The comment-pattern option distinguishes
omitted (`none`, use the default pattern) from JS `null`
(`some none`, disable filtering) from a custom pattern (`some (some p)`). -/
def parseContent (detect : Detector) (content : Str)
    (pat : Option (Option CommentPat)) : ParseResult :=
  let cp := pat.getD (some defaultCommentPattern)
  let rawLines := splitLines content
  let indentUnit := resolveIndentUnit (detect content)
  ⟨parseLinesAux cp indentUnit 0 rawLines, indentUnit⟩

/-- The DIFF_HEADER_PREFIXES list of src/parser.ts. -/
def diffHeaderMarkers : List Str :=
  [str "diff ", str "index ", str "+++", str "---", str "@@"]

/-- src/parser.ts `isDiffHeader`. -/
def isDiffHeader (l : Str) : Bool :=
  diffHeaderMarkers.any (fun p => p.isPrefixOf l)

/-- The `include` selector of diff analysis. -/
inductive DiffInclude where
  | additions
  | deletions
  | both
deriving DecidableEq

/-- src/parser.ts `shouldIncludeLine`. -/
def shouldIncludeLine (l : Str) (inc : DiffInclude) : Bool :=
  let isAddition := (str "+").isPrefixOf l
  let isDeletion := (str "-").isPrefixOf l
  if !isAddition && !isDeletion then false
  else
    match inc with
    | DiffInclude.additions => isAddition
    | DiffInclude.deletions => isDeletion
    | DiffInclude.both => true

/-- src/parser.ts `extractDiffCodeLines`: keep `+`/`-` lines that are not
`+++`/`---` file headers, and strip the one-character marker. -/
def extractDiffCodeLines (rawLines : List Str) : List Str :=
  ((rawLines.filter
      (fun l => (str "+").isPrefixOf l || (str "-").isPrefixOf l)).filter
    (fun l => !(str "+++").isPrefixOf l && !(str "---").isPrefixOf l)).map
    (List.drop 1)

/-- The diff-path line loop of src/parser.ts `parseDiff`: `n` is the running
line-number counter, incremented once per line that passes the header and
addition/deletion gates, before blank-line and comment filtering. -/
def parseDiffAux (cp : Option CommentPat) (u : ℕ) (inc : DiffInclude) :
    ℕ → List Str → List ParsedLine
  | _, [] => []
  | n, l :: rest =>
    if isDiffHeader l then parseDiffAux cp u inc n rest
    else if !shouldIncludeLine l inc then parseDiffAux cp u inc n rest
    else
      let content := l.drop 1
      let trimmed := jsTrim content
      if trimmed = [] then parseDiffAux cp u inc (n + 1) rest
      else if patTest cp content then parseDiffAux cp u inc (n + 1) rest
      else ⟨n + 1, computeIndentDepth content u, trimmed⟩ ::
        parseDiffAux cp u inc (n + 1) rest

/-- src/parser.ts `parseDiff`: indent detection runs over the joined
extracted code lines, then the loop filters and numbers lines. -/
def parseDiff (detect : Detector) (diff : Str) (inc : DiffInclude)
    (pat : Option (Option CommentPat)) : ParseResult :=
  let cp := pat.getD (some defaultCommentPattern)
  let rawLines := splitLines diff
  let codeContent := List.intercalate ['\n'] (extractDiffCodeLines rawLines)
  let indentUnit := resolveIndentUnit (detect codeContent)
  ⟨parseDiffAux cp indentUnit inc 0 rawLines, indentUnit⟩

/-- src/statistics.ts `StatisticalMoments`.  All fields except the standard
deviation are exact rationals; `stdDev` is the real square root the code
obtains from the host math library. -/
structure StatisticalMoments where
  score : ℚ
  sum : ℚ
  mean : ℚ
  variance : ℚ
  stdDev : ℝ
  median : ℚ
  max : ℚ

/-- src/statistics.ts `computeStatistics`, translated clause by clause:
early zero return for the empty list, `reduce` sums as left folds, population
variance over squared deviations, `stdDev = sqrt(variance)`, median from a
numerically sorted copy, max as its last element, and
`score = Σ(depth²)/count`. -/
noncomputable def computeStatistics (depths : List ℚ) : StatisticalMoments :=
  if depths.length = 0 then ⟨0, 0, 0, 0, 0, 0, 0⟩
  else
    let sum := depths.foldl (fun acc d => acc + d) 0
    let n : ℚ := depths.length
    let mean := sum / n
    let squaredDiffs := depths.map (fun d => (d - mean) ^ 2)
    let variance := squaredDiffs.foldl (fun acc d => acc + d) 0 / n
    let stdDev : ℝ := Real.sqrt (variance : ℝ)
    let sorted := depths.insertionSort (fun a b => a ≤ b)
    let mid := sorted.length / 2
    let median :=
      if sorted.length % 2 = 0 then (sorted.getD (mid - 1) 0 + sorted.getD mid 0) / 2
      else sorted.getD mid 0
    let maxDepth := sorted.getLastD 0
    let sumSquaredDepths := depths.foldl (fun acc d => acc + d * d) 0
    ⟨sumSquaredDepths / n, sum, mean, variance, stdDev, median, maxDepth⟩

/-- src/statistics.ts `buildHistogram`: the JS record maps each occurring
depth to its count; reading an absent key yields nothing, embedded here as
count 0. -/
def buildHistogram (depths : List ℚ) : ℚ → ℕ := fun d => depths.count d

/-- The three-valued complexity level. -/
inductive ComplexityLevel where
  | low
  | medium
  | high
deriving DecidableEq

/-- Score thresholds (src/types.ts `Thresholds`). -/
structure Thresholds where
  medium : ℚ
  high : ℚ
deriving DecidableEq

/-- src/constants.ts `DEFAULT_THRESHOLDS`. -/
def DEFAULT_THRESHOLDS : Thresholds := ⟨4, 10⟩

/-- TS `Partial<Thresholds>`: either threshold field may be omitted. -/
structure ThresholdsOverride where
  medium : Option ℚ
  high : Option ℚ

/-- src/assessment.ts `resolveThresholds`: spread the user record over the
defaults, so each omitted field falls back to its default. -/
def resolveThresholds (user : Option ThresholdsOverride) : Thresholds :=
  match user with
  | none => DEFAULT_THRESHOLDS
  | some o => ⟨o.medium.getD DEFAULT_THRESHOLDS.medium, o.high.getD DEFAULT_THRESHOLDS.high⟩

/-- Floor of a rational: floor division of the numerator by the (positive)
denominator. -/
def ratFloor (q : ℚ) : ℤ := Int.fdiv q.num q.den

/-- JS `Number.prototype.toFixed(1)` on a non-negative value: the integer
numerator closest to `q * 10`, ties resolved to the larger, printed with one
digit after the point. -/
def toFixed1OfNonneg (q : ℚ) : Str :=
  let n := (ratFloor (q * 10 + 1 / 2)).toNat
  (toString (n / 10)).data ++ ['.'] ++ (toString (n % 10)).data

/-- JS `q.toFixed(1)`: a sign, then the rounding of the magnitude. -/
def toFixed1 (q : ℚ) : Str :=
  if q < 0 then '-' :: toFixed1OfNonneg (-q) else toFixed1OfNonneg q

/-- JS number-to-string interpolation.  Integers print as their decimal
digits, exactly as in JS; non-integers (never produced by the repository's
own thresholds) are rendered as a numerator/denominator pair, a deterministic
stand-in for the JS decimal expansion of a float. -/
def numToStr (q : ℚ) : Str :=
  if q.den = 1 then (toString q.num).data
  else (toString q.num).data ++ ['/'] ++ (toString q.den).data

/-- The `{level, reason}` record returned by `assessComplexity`. -/
structure Assessment where
  level : ComplexityLevel
  reason : Str
deriving DecidableEq

/-- src/assessment.ts `assessComplexity`: the high comparison first, then
medium, else the fixed low reason. -/
def assessComplexity (score : ℚ) (thresholds : Thresholds) : Assessment :=
  if thresholds.high ≤ score then
    ⟨ComplexityLevel.high,
      str "Score " ++ toFixed1 score ++ str " exceeds high threshold (" ++
        numToStr thresholds.high ++ str ")"⟩
  else if thresholds.medium ≤ score then
    ⟨ComplexityLevel.medium,
      str "Score " ++ toFixed1 score ++ str " exceeds medium threshold (" ++
        numToStr thresholds.medium ++ str ")"⟩
  else ⟨ComplexityLevel.low, str "Score indicates simple, low-nesting code"⟩

/-- src/types.ts `LineDetail`. -/
structure LineDetail where
  line : ℕ
  depth : ℕ
  content : Str
deriving DecidableEq

/-- src/types.ts `ComplexityResult` (the base tier). -/
structure ComplexityResult where
  score : ℚ
  level : ComplexityLevel
  reason : Str

/-- src/types.ts `ComplexityResultVerbose extends ComplexityResult`. -/
structure ComplexityResultVerbose extends ComplexityResult where
  lineCount : ℕ
  max : ℚ
  variance : ℚ
  mean : ℚ
  stdDev : ℝ
  median : ℚ
  sum : ℚ
  depthHistogram : ℚ → ℕ

/-- src/types.ts `ComplexityResultWithLines extends ComplexityResultVerbose`. -/
structure ComplexityResultWithLines extends ComplexityResultVerbose where
  lines : List LineDetail

/-- The union return type of `buildResult`: one of the three result shapes. -/
inductive AnalysisResult where
  | simple (r : ComplexityResult)
  | verbose (r : ComplexityResultVerbose)
  | withLines (r : ComplexityResultWithLines)

/-- The headline score, present in every shape. -/
def AnalysisResult.score : AnalysisResult → ℚ
  | simple r => r.score
  | verbose r => r.score
  | withLines r => r.score

/-- The level, present in every shape. -/
def AnalysisResult.level : AnalysisResult → ComplexityLevel
  | simple r => r.level
  | verbose r => r.level
  | withLines r => r.level

/-- The verbose field block, when the shape carries it. -/
def AnalysisResult.verboseFields? : AnalysisResult → Option ComplexityResultVerbose
  | simple _ => none
  | verbose r => some r
  | withLines r => some r.toComplexityResultVerbose

/-- The line-detail list, when the shape carries it. -/
def AnalysisResult.lineList? : AnalysisResult → Option (List LineDetail)
  | simple _ => none
  | verbose _ => none
  | withLines r => some r.lines

/-- The `lineCount` field, when the shape carries it. -/
def AnalysisResult.lineCount? : AnalysisResult → Option ℕ
  | simple _ => none
  | verbose r => some r.lineCount
  | withLines r => some r.lineCount

/-- Options of src/result-builder.ts `buildResult`. -/
structure BuildOptions where
  verbose : Bool
  includeLines : Bool
  userThresholds : Option ThresholdsOverride

/-- src/result-builder.ts `buildResult`: compute statistics over the parsed
depths, assess the score, and return the shape selected by the two flags. -/
noncomputable def buildResult (lines : List ParsedLine) (o : BuildOptions) :
    AnalysisResult :=
  let depths := lines.map (fun l => (l.depth : ℚ))
  let stats := computeStatistics depths
  let thresholds := resolveThresholds o.userThresholds
  let assessment := assessComplexity stats.score thresholds
  let result : ComplexityResult := ⟨stats.score, assessment.level, assessment.reason⟩
  if !o.verbose && !o.includeLines then AnalysisResult.simple result
  else
    let verboseResult : ComplexityResultVerbose :=
      ⟨result, lines.length, stats.max, stats.variance, stats.mean, stats.stdDev,
        stats.median, stats.sum, buildHistogram depths⟩
    if o.includeLines then
      AnalysisResult.withLines
        ⟨verboseResult, lines.map (fun l => ⟨l.lineNumber, l.depth, l.content⟩)⟩
    else AnalysisResult.verbose verboseResult

/-- Options of `analyzeComplexity` (src/types.ts `AnalyzeOptions`); the two
boolean flags default to false in the source destructuring, so they are
plain booleans here. -/
structure AnalyzeOptions where
  commentPattern : Option (Option CommentPat)
  thresholds : Option ThresholdsOverride
  verbose : Bool
  includeLines : Bool

/-- src/analyze.ts `analyzeComplexity`. -/
noncomputable def analyzeComplexity (detect : Detector) (content : Str)
    (o : AnalyzeOptions) : AnalysisResult :=
  buildResult (parseContent detect content o.commentPattern).lines
    ⟨o.verbose, o.includeLines, o.thresholds⟩

/-- Options of `analyzeDiffComplexity` (src/types.ts `DiffOptions`): the
analyze options plus the optional `include` selector. -/
structure DiffOptions extends AnalyzeOptions where
  include? : Option DiffInclude

/-- src/analyze-diff.ts `analyzeDiffComplexity`: `include` defaults to
`additions`. -/
noncomputable def analyzeDiffComplexity (detect : Detector) (diff : Str)
    (o : DiffOptions) : AnalysisResult :=
  buildResult
    (parseDiff detect diff (o.include?.getD DiffInclude.additions) o.commentPattern).lines
    ⟨o.verbose, o.includeLines, o.thresholds⟩

/-- Spec model of depth columns: scan the line's leading whitespace only,
stopping at the first character that is neither tab nor space; a tab counts
`u` columns, a space 1 column. -/
def specIndentColumns (u : ℕ) : Str → ℕ
  | [] => 0
  | c :: rest =>
    if c = '\t' then u + specIndentColumns u rest
    else if c = ' ' then 1 + specIndentColumns u rest
    else 0

/-- Spec model of the include selector: an addition iff the line starts with
`+`, a deletion iff it starts with `-`; `additions` keeps exactly the
additions, `deletions` exactly the deletions, `both` keeps both; anything
else is discarded. -/
def specShouldInclude (l : Str) (inc : DiffInclude) : Bool :=
  match inc with
  | DiffInclude.additions => (str "+").isPrefixOf l
  | DiffInclude.deletions => (str "-").isPrefixOf l
  | DiffInclude.both => (str "+").isPrefixOf l || (str "-").isPrefixOf l

/-- Spec model of the indent-detection input for diffs: the concatenation of
only the `+`/`-` code lines (excluding the `+++`/`---` file-header lines)
with the leading marker character stripped. -/
def specDetectionInput (diff : Str) : Str :=
  List.intercalate ['\n']
    (((splitLines diff).filter (fun l =>
        ((str "+").isPrefixOf l || (str "-").isPrefixOf l) &&
          (!(str "+++").isPrefixOf l && !(str "---").isPrefixOf l))).map
      (List.drop 1))

/-- The diff lines that pass the diff-header and addition/deletion gates, in
order. -/
def gateLines (inc : DiffInclude) (rawLines : List Str) : List Str :=
  rawLines.filter (fun l => !isDiffHeader l && shouldIncludeLine l inc)

/-- Blank-line and comment filtering of a gate-passing diff line that has
already received its number. -/
def diffLineOfNumbered (cp : Option CommentPat) (u : ℕ) (p : Str × ℕ) :
    Option ParsedLine :=
  let content := p.1.drop 1
  let trimmed := jsTrim content
  if trimmed = [] then none
  else if patTest cp content then none
  else some ⟨p.2, computeIndentDepth content u, trimmed⟩

/-- Spec model of diff-line numbering: the j-th gate-passing line (1-based)
receives line number j, and blank/comment filtering happens afterwards. -/
def specDiffNumbered (cp : Option CommentPat) (u : ℕ) (inc : DiffInclude)
    (rawLines : List Str) : List ParsedLine :=
  ((gateLines inc rawLines).zip
      (List.range' 1 (gateLines inc rawLines).length)).filterMap
    (diffLineOfNumbered cp u)

/-- A hunk with 2 deleted and 2 added non-blank non-comment lines. -/
def hunkDiff : Str :=
  str "@@ -1,3 +1,3 @@\n-old line\n-  old nested\n+new line\n+    new deeply nested"

/-- A diff whose second addition is blank, so the numbering of its counted
lines has a gap. -/
def gapDiff : Str := str "@@ -1,2 +1,3 @@\n+a\n+\n+b"

/-- A diff with an added line whose own content begins with `++` and a
deleted line whose own content begins with `--`: the raw lines start with
`+++` and `---` and are treated as diff headers. -/
def headerTrapDiff : Str := str "@@ -1,2 +1,2 @@\n+++i;\n--- note\n+ok"

/-- A concrete detector, used to instantiate witnesses (any detector works in
the theorems; this one reports 2-space indentation). -/
def constDetector : Detector := fun _ => ⟨2, IndentType.space⟩

/-- The all-zero verbose result produced for empty input: zero statistics,
an empty histogram, and the low-complexity assessment. -/
noncomputable def zeroVerboseResult : ComplexityResultVerbose :=
  ⟨⟨0, ComplexityLevel.low, str "Score indicates simple, low-nesting code"⟩,
    0, 0, 0, 0, 0, 0, 0, buildHistogram []⟩

theorem foldl_add_eq (l : List ℚ) (a : ℚ) :
    l.foldl (fun acc d => acc + d) a = a + l.sum := by
  induction l generalizing a with
  | nil => simp
  | cons x xs ih => simp [ih, List.sum_cons]; ring

theorem foldl_add_mul_eq (l : List ℚ) (a : ℚ) :
    l.foldl (fun acc d => acc + d * d) a = a + (l.map (fun d => d * d)).sum := by
  induction l generalizing a with
  | nil => simp
  | cons x xs ih => simp [ih, List.sum_cons]; ring

theorem sum_sq_dev (l : List ℚ) (m : ℚ) :
    (l.map (fun d => (d - m) ^ 2)).sum =
      (l.map (fun d => d * d)).sum - 2 * m * l.sum + l.length * m ^ 2 := by
  induction l with
  | nil => simp
  | cons x xs ih =>
    simp only [List.map_cons, List.sum_cons, List.length_cons, ih, Nat.cast_add,
      Nat.cast_one]
    ring

/-- Claim C1: for every non-empty list of depths the statistics satisfy the
exact identity score = variance + mean², where score is the mean of squared
depths, mean the arithmetic mean, and variance the population variance. -/
theorem statistics_score_identity (depths : List ℚ) (h : depths ≠ []) :
    (computeStatistics depths).score =
      (computeStatistics depths).variance + (computeStatistics depths).mean ^ 2 := by
  have hlen : depths.length ≠ 0 := fun hl => h (List.length_eq_zero.mp hl)
  have hn : (depths.length : ℚ) ≠ 0 := Nat.cast_ne_zero.mpr hlen
  simp only [computeStatistics, hlen, if_false, foldl_add_eq, foldl_add_mul_eq,
    zero_add, sum_sq_dev]
  field_simp
  ring

/-- Witness for C1 at the concrete depth list [0, 1, 2]. -/
theorem statistics_score_identity_witness :
    ([0, 1, 2] : List ℚ) ≠ [] ∧
      (computeStatistics [0, 1, 2]).score =
        (computeStatistics [0, 1, 2]).variance + (computeStatistics [0, 1, 2]).mean ^ 2 :=
  ⟨by decide, statistics_score_identity [0, 1, 2] (by decide)⟩

/-- Claim C2: the high comparison is evaluated first and each tier boundary
is inclusive on its lower edge: score at or above the high threshold gives
level high with the 1-decimal score and the high threshold inside the
reason; otherwise score at or above the medium threshold gives level medium
with the score and the medium threshold in the reason; otherwise level low
with a fixed reason containing no digits; and resolving thresholds fills any
omitted field with the defaults medium = 4 and high = 10. -/
theorem assessment_tiers_spec (s : ℚ) (u : Option ThresholdsOverride) :
    ((resolveThresholds u).high ≤ s →
      (assessComplexity s (resolveThresholds u)).level = ComplexityLevel.high ∧
      toFixed1 s <:+: (assessComplexity s (resolveThresholds u)).reason ∧
      numToStr (resolveThresholds u).high <:+:
        (assessComplexity s (resolveThresholds u)).reason) ∧
    (s < (resolveThresholds u).high → (resolveThresholds u).medium ≤ s →
      (assessComplexity s (resolveThresholds u)).level = ComplexityLevel.medium ∧
      toFixed1 s <:+: (assessComplexity s (resolveThresholds u)).reason ∧
      numToStr (resolveThresholds u).medium <:+:
        (assessComplexity s (resolveThresholds u)).reason) ∧
    (s < (resolveThresholds u).high → s < (resolveThresholds u).medium →
      (assessComplexity s (resolveThresholds u)).level = ComplexityLevel.low ∧
      (assessComplexity s (resolveThresholds u)).reason =
        str "Score indicates simple, low-nesting code" ∧
      ∀ c ∈ (assessComplexity s (resolveThresholds u)).reason, c.isDigit = false) ∧
    resolveThresholds none = ⟨4, 10⟩ ∧
    ∀ o : ThresholdsOverride,
      resolveThresholds (some o) = ⟨o.medium.getD 4, o.high.getD 10⟩ := by
  refine ⟨?_, ?_, ?_, rfl, fun o => rfl⟩
  · intro hh
    simp only [assessComplexity, if_pos hh]
    exact ⟨trivial,
      ⟨str "Score ", str " exceeds high threshold (" ++
        numToStr (resolveThresholds u).high ++ str ")", by simp⟩,
      ⟨str "Score " ++ toFixed1 s ++ str " exceeds high threshold (",
        str ")", by simp⟩⟩
  · intro hh hm
    simp only [assessComplexity, if_neg (not_le.mpr hh), if_pos hm]
    exact ⟨trivial,
      ⟨str "Score ", str " exceeds medium threshold (" ++
        numToStr (resolveThresholds u).medium ++ str ")", by simp⟩,
      ⟨str "Score " ++ toFixed1 s ++ str " exceeds medium threshold (",
        str ")", by simp⟩⟩
  · intro hh hm
    simp only [assessComplexity, if_neg (not_le.mpr hh), if_neg (not_le.mpr hm)]
    exact ⟨trivial, trivial, by decide⟩

/-- Witness for C2 with the default thresholds, at scores 10 (high tier
boundary), 4 (medium tier boundary) and 0 (low tier). -/
theorem assessment_tiers_spec_witness :
    ((resolveThresholds none).high ≤ 10 ∧
      (assessComplexity 10 (resolveThresholds none)).level = ComplexityLevel.high) ∧
    ((4 : ℚ) < (resolveThresholds none).high ∧ (resolveThresholds none).medium ≤ 4 ∧
      (assessComplexity 4 (resolveThresholds none)).level = ComplexityLevel.medium) ∧
    ((0 : ℚ) < (resolveThresholds none).medium ∧
      (assessComplexity 0 (resolveThresholds none)).level = ComplexityLevel.low) :=
  ⟨⟨by decide, ((assessment_tiers_spec 10 none).1 (by decide)).1⟩,
    ⟨by decide, by decide,
      ((assessment_tiers_spec 4 none).2.1 (by decide) (by decide)).1⟩,
    ⟨by decide,
      ((assessment_tiers_spec 0 none).2.2.1 (by decide) (by decide)).1⟩⟩

/-- Counterexample to claim C3 as stated: with caller thresholds
medium = 10 and high = 4 (medium > high) and score 5, which lies in
[high, medium), the returned level IS high, so the assessment does take the
high branch there. -/
theorem inverted_thresholds_claim_false :
    (4 : ℚ) < 10 ∧ (4 : ℚ) ≤ 5 ∧ (5 : ℚ) < 10 ∧
      ¬(assessComplexity 5 ⟨10, 4⟩).level ≠ ComplexityLevel.high := by
  refine ⟨by decide, by decide, by decide, ?_⟩
  intro hne
  exact hne (by decide)

/-- Claim C3, amended: if a caller supplies thresholds with medium > high,
then for every score with high ≤ score < medium the assessment takes the
high branch (the returned level is high), so it is the medium branch, not
the high one, that is unreachable on that interval. -/
theorem inverted_thresholds_high_branch (t : Thresholds) (s : ℚ)
    (_hinv : t.high < t.medium) (h1 : t.high ≤ s) (_h2 : s < t.medium) :
    (assessComplexity s t).level = ComplexityLevel.high ∧
      (assessComplexity s t).level ≠ ComplexityLevel.medium := by
  have : assessComplexity s t =
      ⟨ComplexityLevel.high,
        str "Score " ++ toFixed1 s ++ str " exceeds high threshold (" ++
          numToStr t.high ++ str ")"⟩ := by
    simp only [assessComplexity, if_pos h1]
  rw [this]
  exact ⟨rfl, fun hc => ComplexityLevel.noConfusion hc⟩

/-- Witness for the amended C3 at thresholds medium = 8, high = 2 and
score 3. -/
theorem inverted_thresholds_high_branch_witness :
    ((2 : ℚ) < 8 ∧ (2 : ℚ) ≤ 3 ∧ (3 : ℚ) < 8) ∧
      (assessComplexity 3 ⟨8, 2⟩).level = ComplexityLevel.high ∧
      (assessComplexity 3 ⟨8, 2⟩).level ≠ ComplexityLevel.medium :=
  ⟨⟨by decide, by decide, by decide⟩,
    inverted_thresholds_high_branch ⟨8, 2⟩ 3 (by decide) (by decide) (by decide)⟩

theorem takeWhile_foldl_eq_specColumns (u : ℕ) (l : Str) :
    ∀ a : ℕ,
      ((l.takeWhile fun c => c = '\t' || c = ' ').foldl
        (fun acc c => acc + if c = '\t' then u else 1) a) = a + specIndentColumns u l := by
  induction l with
  | nil => intro a; simp [specIndentColumns]
  | cons c rest ih =>
    intro a
    by_cases ht : c = '\t'
    · simp [List.takeWhile_cons, ht, specIndentColumns, ih, Nat.add_assoc]
    · by_cases hs : c = ' '
      · simp [List.takeWhile_cons, ht, hs, specIndentColumns, ih, Nat.add_assoc]
      · simp [List.takeWhile_cons, ht, hs, specIndentColumns]

/-- Claim C4: for every line and indent unit at least 1, the computed depth
is the floor of total leading-whitespace columns divided by the unit, where
the scan stops at the first non-whitespace character, a tab counts as
indentUnit columns and a space as 1; and the unit fed to depth computation
is 1 for tab indentation and otherwise the detected amount floored at 1. -/
theorem indent_depth_spec (l : Str) (u : ℕ) (_hu : 1 ≤ u) (info : IndentInfo) :
    computeIndentDepth l u = specIndentColumns u l / u ∧
    resolveIndentUnit info =
      (if info.type = IndentType.tab then 1 else Nat.max 1 info.amount) ∧
    ∀ (detect : Detector) (content : Str) (pat : Option (Option CommentPat)),
      (parseContent detect content pat).indentUnit = resolveIndentUnit (detect content) := by
  refine ⟨?_, ?_, fun detect content pat => rfl⟩
  · have hcol := takeWhile_foldl_eq_specColumns u l 0
    simp only [computeIndentDepth, hcol, Nat.zero_add]
  · cases htype : info.type <;> cases hamt : info.amount <;>
      simp [resolveIndentUnit, htype, hamt, Nat.max_def]

/-- Witness for C4 at the line tab-space-space-x with unit 2 and a detected
3-space indentation. -/
theorem indent_depth_spec_witness :
    1 ≤ 2 ∧
      computeIndentDepth (str "\t  x") 2 = specIndentColumns 2 (str "\t  x") / 2 ∧
      resolveIndentUnit ⟨3, IndentType.space⟩ =
        (if IndentType.space = IndentType.tab then 1 else Nat.max 1 3) :=
  ⟨by decide, (indent_depth_spec (str "\t  x") 2 (by decide) ⟨3, IndentType.space⟩).1,
    (indent_depth_spec (str "\t  x") 2 (by decide) ⟨3, IndentType.space⟩).2.1⟩

theorem mem_splitLines_ws {content : Str}
    (h : ∀ c ∈ content, isJsWhitespace c = true) :
    ∀ p ∈ splitLines content, ∀ c ∈ p, isJsWhitespace c = true := by
  induction content with
  | nil =>
    intro p hp c hc
    simp only [splitLines, List.mem_singleton] at hp
    subst hp
    exact absurd hc (List.not_mem_nil c)
  | cons a rest ih =>
    have ha : isJsWhitespace a = true := h a (List.mem_cons_self a rest)
    have hrest : ∀ c ∈ rest, isJsWhitespace c = true :=
      fun c hc => h c (List.mem_cons_of_mem a hc)
    intro p hp c hc
    by_cases han : a = '\n'
    · simp only [splitLines, han, if_pos rfl] at hp
      rcases List.mem_cons.mp hp with hnil | htail
      · subst hnil; exact absurd hc (List.not_mem_nil c)
      · exact ih hrest p htail c hc
    · simp only [splitLines, if_neg han] at hp
      cases hs : splitLines rest with
      | nil =>
        rw [hs] at hp
        simp only [List.mem_singleton] at hp
        subst hp
        rcases List.mem_cons.mp hc with rfl | hcn
        · exact ha
        · exact absurd hcn (List.not_mem_nil c)
      | cons hd tl =>
        rw [hs] at hp
        rcases List.mem_cons.mp hp with rfl | htail
        · rcases List.mem_cons.mp hc with rfl | hcd
          · exact ha
          · exact ih hrest hd (hs ▸ List.mem_cons_self hd tl) c hcd
        · exact ih hrest p (hs ▸ List.mem_cons_of_mem hd htail) c hc

theorem jsTrim_eq_nil {l : Str} (h : ∀ c ∈ l, isJsWhitespace c = true) :
    jsTrim l = [] := by
  have h1 : l.dropWhile isJsWhitespace = [] := by
    rw [List.dropWhile_eq_nil_iff]
    exact fun x hx => by simp [h x hx]
  simp [jsTrim, h1]

theorem parseLinesAux_nil (cp : Option CommentPat) (u : ℕ) :
    ∀ pieces : List Str, (∀ p ∈ pieces, jsTrim p = []) →
      ∀ i, parseLinesAux cp u i pieces = [] := by
  intro pieces
  induction pieces with
  | nil => intro _ i; rfl
  | cons l rest ih =>
    intro h i
    have hl : jsTrim l = [] := h l (List.mem_cons_self l rest)
    simp only [parseLinesAux, hl, if_pos rfl]
    exact ih (fun p hp => h p (List.mem_cons_of_mem l hp)) (i + 1)

theorem ws_line_not_included {l : Str}
    (h : ∀ c ∈ l, isJsWhitespace c = true) (inc : DiffInclude) :
    shouldIncludeLine l inc = false := by
  cases l with
  | nil => cases inc <;> rfl
  | cons c rest =>
    have hc : isJsWhitespace c = true := h c (List.mem_cons_self c rest)
    have h6 : c = ' ' ∨ c = '\t' ∨ c = '\n' ∨ c = '\r' ∨ c = '\x0b' ∨ c = '\x0c' := by
      have h7 := hc
      simp only [isJsWhitespace, Bool.or_eq_true, decide_eq_true_eq] at h7
      tauto
    rcases h6 with rfl | rfl | rfl | rfl | rfl | rfl <;> cases inc <;> rfl

theorem parseDiffAux_nil (cp : Option CommentPat) (u : ℕ) (inc : DiffInclude) :
    ∀ pieces : List Str, (∀ p ∈ pieces, ∀ c ∈ p, isJsWhitespace c = true) →
      ∀ n, parseDiffAux cp u inc n pieces = [] := by
  intro pieces
  induction pieces with
  | nil => intro _ n; rfl
  | cons l rest ih =>
    intro h n
    have hrest := fun p hp => h p (List.mem_cons_of_mem l hp)
    have hinc : shouldIncludeLine l inc = false :=
      ws_line_not_included (h l (List.mem_cons_self l rest)) inc
    by_cases hh : isDiffHeader l = true
    · simp only [parseDiffAux, hh, if_pos rfl]
      exact ih hrest n
    · simp only [parseDiffAux, hh, Bool.false_eq_true, if_false, hinc, Bool.not_false,
        if_pos rfl]
      exact ih hrest n

theorem buildResult_nil (v il : Bool) :
    ((buildResult [] ⟨v, il, none⟩).score = 0 ∧
      (buildResult [] ⟨v, il, none⟩).level = ComplexityLevel.low) ∧
    (v = true ∨ il = true →
      (buildResult [] ⟨v, il, none⟩).verboseFields? = some zeroVerboseResult) := by
  cases v <;> cases il
  · exact ⟨⟨rfl, rfl⟩, fun hc => by rcases hc with hc | hc <;> simp at hc⟩
  · exact ⟨⟨rfl, rfl⟩, fun _ => rfl⟩
  · exact ⟨⟨rfl, rfl⟩, fun _ => rfl⟩
  · exact ⟨⟨rfl, rfl⟩, fun _ => rfl⟩

/-- Claim C5: on empty or whitespace-only input, both analysis entry points
return a complete result with score 0 and level low, and when verbose
fields are requested (verbose or includeLines) they are all zero:
lineCount = 0 and sum = mean = variance = stdDev = median = max = 0 (the
whole verbose block equals the all-zero record). -/
theorem whitespace_only_zero (detect : Detector) (pat : Option (Option CommentPat))
    (v il : Bool) (inc : Option DiffInclude) (content : Str)
    (h : ∀ c ∈ content, isJsWhitespace c = true) :
    ((analyzeComplexity detect content ⟨pat, none, v, il⟩).score = 0 ∧
      (analyzeComplexity detect content ⟨pat, none, v, il⟩).level = ComplexityLevel.low ∧
      (v = true ∨ il = true →
        (analyzeComplexity detect content ⟨pat, none, v, il⟩).verboseFields? =
          some zeroVerboseResult)) ∧
    ((analyzeDiffComplexity detect content ⟨⟨pat, none, v, il⟩, inc⟩).score = 0 ∧
      (analyzeDiffComplexity detect content ⟨⟨pat, none, v, il⟩, inc⟩).level =
        ComplexityLevel.low ∧
      (v = true ∨ il = true →
        (analyzeDiffComplexity detect content ⟨⟨pat, none, v, il⟩, inc⟩).verboseFields? =
          some zeroVerboseResult)) := by
  have hw := mem_splitLines_ws h
  have hlines : (parseContent detect content pat).lines = [] :=
    parseLinesAux_nil _ _ _ (fun p hp => jsTrim_eq_nil (hw p hp)) 0
  have hdlines :
      (parseDiff detect content (inc.getD DiffInclude.additions) pat).lines = [] :=
    parseDiffAux_nil _ _ _ _ hw 0
  have e1 : analyzeComplexity detect content ⟨pat, none, v, il⟩ =
      buildResult [] ⟨v, il, none⟩ := by
    show buildResult (parseContent detect content pat).lines ⟨v, il, none⟩ =
      buildResult [] ⟨v, il, none⟩
    rw [hlines]
  have e2 : analyzeDiffComplexity detect content ⟨⟨pat, none, v, il⟩, inc⟩ =
      buildResult [] ⟨v, il, none⟩ := by
    show buildResult
        (parseDiff detect content (inc.getD DiffInclude.additions) pat).lines
        ⟨v, il, none⟩ = buildResult [] ⟨v, il, none⟩
    rw [hdlines]
  rw [e1, e2]
  obtain ⟨⟨hs, hl⟩, hv⟩ := buildResult_nil v il
  exact ⟨⟨hs, hl, hv⟩, ⟨hs, hl, hv⟩⟩

/-- Witness for C5 at the whitespace-only input space-tab-newline, with
verbose requested. -/
theorem whitespace_only_zero_witness :
    (∀ c ∈ str " \t\n", isJsWhitespace c = true) ∧
    (analyzeComplexity constDetector (str " \t\n") ⟨none, none, true, false⟩).score = 0 ∧
    (analyzeComplexity constDetector (str " \t\n") ⟨none, none, true, false⟩).level =
      ComplexityLevel.low ∧
    (analyzeComplexity constDetector (str " \t\n")
        ⟨none, none, true, false⟩).verboseFields? = some zeroVerboseResult ∧
    (analyzeDiffComplexity constDetector (str " \t\n")
        ⟨⟨none, none, true, false⟩, none⟩).score = 0 ∧
    (analyzeDiffComplexity constDetector (str " \t\n")
        ⟨⟨none, none, true, false⟩, none⟩).level = ComplexityLevel.low ∧
    (analyzeDiffComplexity constDetector (str " \t\n")
        ⟨⟨none, none, true, false⟩, none⟩).verboseFields? = some zeroVerboseResult := by
  have hws : ∀ c ∈ str " \t\n", isJsWhitespace c = true := by decide
  have h := whitespace_only_zero constDetector none true false none (str " \t\n") hws
  exact ⟨hws, h.1.1, h.1.2.1, h.1.2.2 (Or.inl rfl), h.2.1, h.2.2.1,
    h.2.2.2 (Or.inl rfl)⟩

/-- Claim C6: after diff-header stripping a line is an addition iff it
starts with plus and a deletion iff it starts with minus, lines that are
neither are always discarded, and the include selector keeps exactly the
additions (the default), exactly the deletions, or both; on the sample hunk
with 2 added and 2 removed code lines the default yields lineCount 2 and
include both yields lineCount 4. -/
theorem diff_include_selector :
    (∀ (l : Str) (inc : DiffInclude), shouldIncludeLine l inc = specShouldInclude l inc) ∧
    (∀ detect : Detector,
      (analyzeDiffComplexity detect hunkDiff ⟨⟨none, none, true, false⟩, none⟩).lineCount? =
        some 2) ∧
    (∀ detect : Detector,
      (analyzeDiffComplexity detect hunkDiff
          ⟨⟨none, none, true, false⟩, some DiffInclude.both⟩).lineCount? = some 4) := by
  refine ⟨?_, fun detect => rfl, fun detect => rfl⟩
  intro l inc
  unfold shouldIncludeLine specShouldInclude
  cases inc <;> cases hA : (str "+").isPrefixOf l <;> cases hD : (str "-").isPrefixOf l <;>
    simp [hA, hD]

/-- Claim C9: whenever the result carries the per-line detail list
(includeLines true), it is the with-lines shape, which also carries the
whole verbose field block even when verbose was not requested, and its
lineCount equals the length of the line-detail list. -/
theorem include_lines_superset (pl : List ParsedLine) (v : Bool)
    (u : Option ThresholdsOverride) :
    (buildResult pl ⟨v, true, u⟩).lineList?.isSome = true ∧
    (buildResult pl ⟨v, true, u⟩).verboseFields?.isSome = true ∧
    (buildResult pl ⟨v, true, u⟩).lineCount? =
      (buildResult pl ⟨v, true, u⟩).lineList?.map List.length := by
  cases v <;>
    refine ⟨rfl, rfl, ?_⟩ <;>
    · show some pl.length = some (pl.map fun l => (⟨l.lineNumber, l.depth, l.content⟩ :
        LineDetail)).length
      simp

/-- Claim C10: a raw diff line beginning with plus-plus-plus or
minus-minus-minus is treated as a diff header and dropped under every
include setting, so an added line whose own content begins with two pluses
(here plus-plus-i-semicolon) or a deleted line whose content begins with two
minuses (here a SQL-style comment) never reaches the analyzed lines even
with comment filtering disabled, while an ordinary added line survives. -/
theorem diff_header_trap (detect : Detector) (inc : DiffInclude) :
    isDiffHeader (str "+++i;") = true ∧
    isDiffHeader (str "--- note") = true ∧
    str "++i;" ∉
      ((parseDiff detect headerTrapDiff inc (some none)).lines.map fun l => l.content) ∧
    str "-- note" ∉
      ((parseDiff detect headerTrapDiff inc (some none)).lines.map fun l => l.content) ∧
    ((parseDiff detect headerTrapDiff DiffInclude.additions (some none)).lines.map
        fun l => l.content) = [str "ok"] := by
  refine ⟨by decide, by decide, ?_, ?_, rfl⟩ <;>
    cases inc
  · show str "++i;" ∉ [str "ok"]; decide
  · show str "++i;" ∉ ([] : List Str); decide
  · show str "++i;" ∉ [str "ok"]; decide
  · show str "-- note" ∉ [str "ok"]; decide
  · show str "-- note" ∉ ([] : List Str); decide
  · show str "-- note" ∉ [str "ok"]; decide

theorem parseDiffAux_eq_spec (cp : Option CommentPat) (u : ℕ) (inc : DiffInclude) :
    ∀ (ls : List Str) (n : ℕ),
      parseDiffAux cp u inc n ls =
        ((gateLines inc ls).zip
            (List.range' (n + 1) (gateLines inc ls).length)).filterMap
          (diffLineOfNumbered cp u) := by
  intro ls
  induction ls with
  | nil => intro n; rfl
  | cons l rest ih =>
    intro n
    by_cases hh : isDiffHeader l = true
    · rw [show gateLines inc (l :: rest) = gateLines inc rest by
        simp [gateLines, List.filter_cons, hh]]
      rw [show parseDiffAux cp u inc n (l :: rest) = parseDiffAux cp u inc n rest by
        simp [parseDiffAux, hh]]
      exact ih n
    · have hh' : isDiffHeader l = false := by revert hh; cases isDiffHeader l <;> simp
      by_cases hi : shouldIncludeLine l inc = true
      · have hg : gateLines inc (l :: rest) = l :: gateLines inc rest := by
          simp [gateLines, List.filter_cons, hh', hi]
        rw [hg, show (l :: gateLines inc rest).length = (gateLines inc rest).length + 1
          from rfl, List.range'_succ, List.zip_cons_cons, List.filterMap_cons]
        by_cases ht : jsTrim (List.tail l) = []
        · rw [show diffLineOfNumbered cp u (l, n + 1) = none by
            simp [diffLineOfNumbered, ht]]
          rw [show parseDiffAux cp u inc n (l :: rest) = parseDiffAux cp u inc (n + 1) rest
            by simp [parseDiffAux, hh', hi, ht]]
          exact ih (n + 1)
        · by_cases hp : patTest cp (List.tail l) = true
          · rw [show diffLineOfNumbered cp u (l, n + 1) = none by
              simp [diffLineOfNumbered, ht, hp]]
            rw [show parseDiffAux cp u inc n (l :: rest) =
                parseDiffAux cp u inc (n + 1) rest by
              simp [parseDiffAux, hh', hi, ht, hp]]
            exact ih (n + 1)
          · have hp' : patTest cp (List.tail l) = false := by
              revert hp; cases patTest cp (List.tail l) <;> simp
            rw [show diffLineOfNumbered cp u (l, n + 1) =
                some ⟨n + 1, computeIndentDepth (List.tail l) u, jsTrim (List.tail l)⟩
              by simp [diffLineOfNumbered, ht, hp']]
            rw [show parseDiffAux cp u inc n (l :: rest) =
                ⟨n + 1, computeIndentDepth (List.tail l) u, jsTrim (List.tail l)⟩ ::
                  parseDiffAux cp u inc (n + 1) rest by
              simp [parseDiffAux, hh', hi, ht, hp']]
            exact congrArg (List.cons _) (ih (n + 1))
      · have hi' : shouldIncludeLine l inc = false := by
          revert hi; cases shouldIncludeLine l inc <;> simp
        rw [show gateLines inc (l :: rest) = gateLines inc rest by
          simp [gateLines, List.filter_cons, hh', hi']]
        rw [show parseDiffAux cp u inc n (l :: rest) = parseDiffAux cp u inc n rest by
          simp [parseDiffAux, hh', hi']]
        exact ih n

theorem parseDiffAux_lineNumber_gt (cp : Option CommentPat) (u : ℕ) (inc : DiffInclude) :
    ∀ (ls : List Str) (n : ℕ) (x : ParsedLine),
      x ∈ parseDiffAux cp u inc n ls → n < x.lineNumber := by
  intro ls
  induction ls with
  | nil => intro n x hx; exact absurd hx (List.not_mem_nil x)
  | cons l rest ih =>
    intro n x hx
    by_cases hh : isDiffHeader l = true
    · rw [show parseDiffAux cp u inc n (l :: rest) = parseDiffAux cp u inc n rest by
        simp [parseDiffAux, hh]] at hx
      exact ih n x hx
    · have hh' : isDiffHeader l = false := by revert hh; cases isDiffHeader l <;> simp
      by_cases hi : shouldIncludeLine l inc = true
      · by_cases ht : jsTrim (List.tail l) = []
        · rw [show parseDiffAux cp u inc n (l :: rest) = parseDiffAux cp u inc (n + 1) rest
            by simp [parseDiffAux, hh', hi, ht]] at hx
          exact Nat.lt_of_succ_lt (ih (n + 1) x hx)
        · by_cases hp : patTest cp (List.tail l) = true
          · rw [show parseDiffAux cp u inc n (l :: rest) =
                parseDiffAux cp u inc (n + 1) rest by
              simp [parseDiffAux, hh', hi, ht, hp]] at hx
            exact Nat.lt_of_succ_lt (ih (n + 1) x hx)
          · have hp' : patTest cp (List.tail l) = false := by
              revert hp; cases patTest cp (List.tail l) <;> simp
            rw [show parseDiffAux cp u inc n (l :: rest) =
                ⟨n + 1, computeIndentDepth (List.tail l) u, jsTrim (List.tail l)⟩ ::
                  parseDiffAux cp u inc (n + 1) rest by
              simp [parseDiffAux, hh', hi, ht, hp']] at hx
            rcases List.mem_cons.mp hx with rfl | htail
            · exact Nat.lt_succ_self n
            · exact Nat.lt_of_succ_lt (ih (n + 1) x htail)
      · have hi' : shouldIncludeLine l inc = false := by
          revert hi; cases shouldIncludeLine l inc <;> simp
        rw [show parseDiffAux cp u inc n (l :: rest) = parseDiffAux cp u inc n rest by
          simp [parseDiffAux, hh', hi']] at hx
        exact ih n x hx

theorem parseDiffAux_pairwise (cp : Option CommentPat) (u : ℕ) (inc : DiffInclude) :
    ∀ (ls : List Str) (n : ℕ),
      List.Pairwise (fun a b => a.lineNumber < b.lineNumber)
        (parseDiffAux cp u inc n ls) := by
  intro ls
  induction ls with
  | nil => intro n; exact List.Pairwise.nil
  | cons l rest ih =>
    intro n
    by_cases hh : isDiffHeader l = true
    · rw [show parseDiffAux cp u inc n (l :: rest) = parseDiffAux cp u inc n rest by
        simp [parseDiffAux, hh]]
      exact ih n
    · have hh' : isDiffHeader l = false := by revert hh; cases isDiffHeader l <;> simp
      by_cases hi : shouldIncludeLine l inc = true
      · by_cases ht : jsTrim (List.tail l) = []
        · rw [show parseDiffAux cp u inc n (l :: rest) = parseDiffAux cp u inc (n + 1) rest
            by simp [parseDiffAux, hh', hi, ht]]
          exact ih (n + 1)
        · by_cases hp : patTest cp (List.tail l) = true
          · rw [show parseDiffAux cp u inc n (l :: rest) =
                parseDiffAux cp u inc (n + 1) rest by
              simp [parseDiffAux, hh', hi, ht, hp]]
            exact ih (n + 1)
          · have hp' : patTest cp (List.tail l) = false := by
              revert hp; cases patTest cp (List.tail l) <;> simp
            rw [show parseDiffAux cp u inc n (l :: rest) =
                ⟨n + 1, computeIndentDepth (List.tail l) u, jsTrim (List.tail l)⟩ ::
                  parseDiffAux cp u inc (n + 1) rest by
              simp [parseDiffAux, hh', hi, ht, hp']]
            exact List.Pairwise.cons
              (fun y hy => parseDiffAux_lineNumber_gt cp u inc rest (n + 1) y hy)
              (ih (n + 1))
      · have hi' : shouldIncludeLine l inc = false := by
          revert hi; cases shouldIncludeLine l inc <;> simp
        rw [show parseDiffAux cp u inc n (l :: rest) = parseDiffAux cp u inc n rest by
          simp [parseDiffAux, hh', hi']]
        exact ih n

/-- Claim C7: the diff line numbers come from a counter incremented exactly
once per line that passes the diff-header and addition/deletion gates,
before blank-line and comment filtering (the parsed lines equal the
gate-passing lines numbered 1, 2, 3, ... and then filtered), so the
resulting lineNumber sequence is strictly increasing and can have gaps, as
on the concrete diff whose blank addition produces the numbers 1 and 3. -/
theorem diff_line_numbering (detect : Detector) (diff : Str) (inc : DiffInclude)
    (pat : Option (Option CommentPat)) :
    (parseDiff detect diff inc pat).lines =
      specDiffNumbered (pat.getD (some defaultCommentPattern))
        (parseDiff detect diff inc pat).indentUnit inc (splitLines diff) ∧
    List.Pairwise (fun a b => a.lineNumber < b.lineNumber)
      (parseDiff detect diff inc pat).lines ∧
    ∀ detect2 : Detector,
      ((parseDiff detect2 gapDiff DiffInclude.additions none).lines.map
        fun l => l.lineNumber) = [1, 3] := by
  refine ⟨?_, ?_, fun detect2 => rfl⟩
  · exact parseDiffAux_eq_spec _ _ inc (splitLines diff) 0
  · exact parseDiffAux_pairwise _ _ inc (splitLines diff) 0

/-- Claim C8: the indent-unit detection input for a diff is the
concatenation of only the plus/minus code lines (excluding the
plus-plus-plus and minus-minus-minus file headers) with the leading marker
stripped, and it is identical for every include selector (and comment
pattern), so the resolved indent unit never depends on them. -/
theorem diff_detection_input (detect : Detector) (diff : Str)
    (inc1 inc2 : DiffInclude) (pat1 pat2 : Option (Option CommentPat)) :
    (parseDiff detect diff inc1 pat1).indentUnit =
      resolveIndentUnit (detect (specDetectionInput diff)) ∧
    (parseDiff detect diff inc1 pat1).indentUnit =
      (parseDiff detect diff inc2 pat2).indentUnit := by
  have hfilter : ∀ rl : List Str,
      extractDiffCodeLines rl =
        (rl.filter fun l =>
          ((str "+").isPrefixOf l || (str "-").isPrefixOf l) &&
            (!(str "+++").isPrefixOf l && !(str "---").isPrefixOf l)).map
          (List.drop 1) := by
    intro rl
    unfold extractDiffCodeLines
    rw [List.filter_filter]
    refine congrArg (List.map (List.drop 1)) (List.filter_congr ?_)
    intro a _
    cases hA : (str "+").isPrefixOf a <;> cases hB : (str "-").isPrefixOf a <;>
      cases hC : (str "+++").isPrefixOf a <;> cases hD : (str "---").isPrefixOf a <;> rfl
  have h1 : ∀ (inc : DiffInclude) (pat : Option (Option CommentPat)),
      (parseDiff detect diff inc pat).indentUnit =
        resolveIndentUnit (detect (specDetectionInput diff)) := by
    intro inc pat
    show resolveIndentUnit
        (detect (List.intercalate ['\n'] (extractDiffCodeLines (splitLines diff)))) = _
    rw [hfilter]
    rfl
  exact ⟨h1 inc1 pat1, (h1 inc1 pat1).trans (h1 inc2 pat2).symm⟩
